import Mathlib

/-!
Verification of `src/output/accounts.py` (trading-account ledger).

Modelling choices:
* Money (Python `float`) is modelled as `ℚ`; all amounts appearing in the
  program's checks and updates are added, subtracted and multiplied only, so
  the rational model is exact for the arithmetic the claims are about.
* Python `dict` holdings are modelled as an insertion-ordered association
  list: `get` with default 0, in-place update of an existing key (else append
  at the end), and `del` of the key, exactly as Python dicts behave.
* A raised `ValueError` is modelled as `Except.error msg` carrying the exact
  message string from the source; every raise in the source happens before
  any state mutation, so a failing call returns the input state unchanged.
* `Transaction.timestamp` (`datetime.now()`) is omitted: it is an external
  clock value that no claim mentions.
-/

namespace Accounts

/-- Holdings: Python `dict[str, int]`, symbol -> share count, insertion order. -/
abbrev Holdings := List (String × Int)

/-- Python `holdings.get(symbol, 0)`. -/
def hGet : Holdings → String → Int
  | [], _ => 0
  | p :: rest, s => if p.1 = s then p.2 else hGet rest s

/-- Python `holdings[symbol] = v`: update the (unique) existing key in place,
else append the new pair at the end. -/
def hSet : Holdings → String → Int → Holdings
  | [], s, v => [(s, v)]
  | p :: rest, s, v => if p.1 = s then (s, v) :: rest else p :: hSet rest s v

/-- Python `del holdings[symbol]`: remove the (unique) key. -/
def hErase : Holdings → String → Holdings
  | [], _ => []
  | p :: rest, s => if p.1 = s then rest else p :: hErase rest s

/-- Python `symbol in holdings`. -/
def hHasKey : Holdings → String → Bool
  | [], _ => false
  | p :: rest, s => p.1 = s || hHasKey rest s

/-- `get_share_price(symbol)`: fixed table, `ValueError` on unknown symbol. -/
def get_share_price (symbol : String) : Except String ℚ :=
  if symbol = "AAPL" then .ok 150
  else if symbol = "TSLA" then .ok 700
  else if symbol = "GOOGL" then .ok 2800
  else .error ("Unknown share symbol: " ++ symbol)

/-- The `Transaction` dataclass (timestamp omitted, see file header).
Field defaults mirror the Python dataclass defaults. -/
structure Transaction where
  type : String
  amount : ℚ := 0
  symbol : Option String := none
  quantity : Option Int := none
  price_per_share : Option ℚ := none
deriving DecidableEq, Repr

/-- The `Account` class state: `__init__` fields. -/
structure Account where
  cash_balance : ℚ
  holdings : Holdings
  transactions : List Transaction
  initial_deposit : ℚ
deriving DecidableEq, Repr

/-- `Account.__init__`: zero cash, no holdings, empty history. -/
def Account.init : Account :=
  { cash_balance := 0, holdings := [], transactions := [], initial_deposit := 0 }

/-- `Account.create_account(initial_deposit)`. -/
def Account.create_account (acc : Account) (initial_deposit : ℚ) :
    Except String Account :=
  if acc.initial_deposit > 0 then
    .error "Account already created with initial deposit."
  else if initial_deposit ≤ 0 then
    .error "Initial deposit must be greater than zero."
  else
    .ok { acc with
      cash_balance := initial_deposit
      initial_deposit := initial_deposit
      transactions := acc.transactions ++
        [{ type := "deposit", amount := initial_deposit }] }

/-- `Account.deposit(amount)`. -/
def Account.deposit (acc : Account) (amount : ℚ) : Except String Account :=
  if amount ≤ 0 then
    .error "Deposit amount must be greater than zero."
  else
    .ok { acc with
      cash_balance := acc.cash_balance + amount
      transactions := acc.transactions ++
        [{ type := "deposit", amount := amount }] }

/-- `Account.withdraw(amount)`. -/
def Account.withdraw (acc : Account) (amount : ℚ) : Except String Account :=
  if amount ≤ 0 then
    .error "Withdrawal amount must be greater than zero."
  else if amount > acc.cash_balance then
    .error "Insufficient funds for withdrawal."
  else
    .ok { acc with
      cash_balance := acc.cash_balance - amount
      transactions := acc.transactions ++
        [{ type := "withdrawal", amount := amount }] }

/-- `Account.buy(symbol, quantity)`.  A `ValueError` raised by
`get_share_price` propagates to the caller unchanged. -/
def Account.buy (acc : Account) (symbol : String) (quantity : Int) :
    Except String Account :=
  if quantity ≤ 0 then
    .error "Quantity to buy must be greater than zero."
  else
    match get_share_price symbol with
    | .error e => .error e
    | .ok share_price =>
      let total_cost : ℚ := share_price * (quantity : ℚ)
      if total_cost > acc.cash_balance then
        .error "Insufficient funds to buy shares."
      else
        .ok { acc with
          cash_balance := acc.cash_balance - total_cost
          holdings := hSet acc.holdings symbol (hGet acc.holdings symbol + quantity)
          transactions := acc.transactions ++
            [{ type := "buy", symbol := some symbol, quantity := some quantity,
               price_per_share := some share_price }] }

/-- `Account.sell(symbol, quantity)`.  The held-quantity check precedes the
price lookup, as in the source. -/
def Account.sell (acc : Account) (symbol : String) (quantity : Int) :
    Except String Account :=
  if quantity ≤ 0 then
    .error "Quantity to sell must be greater than zero."
  else
    let current_quantity := hGet acc.holdings symbol
    if quantity > current_quantity then
      .error "Insufficient shares held to sell."
    else
      match get_share_price symbol with
      | .error e => .error e
      | .ok share_price =>
        let total_proceeds : ℚ := share_price * (quantity : ℚ)
        let new_quantity := current_quantity - quantity
        .ok { acc with
          cash_balance := acc.cash_balance + total_proceeds
          holdings :=
            if new_quantity = 0 then hErase acc.holdings symbol
            else hSet acc.holdings symbol new_quantity
          transactions := acc.transactions ++
            [{ type := "sell", symbol := some symbol, quantity := some quantity,
               price_per_share := some share_price }] }

/-- `Account.get_cash_balance()`. -/
def Account.get_cash_balance (acc : Account) : ℚ := acc.cash_balance

/-- `Account.list_transactions()` (the source returns a copy of the list). -/
def Account.list_transactions (acc : Account) : List Transaction :=
  acc.transactions

/-- `Account.get_portfolio_value()`'s loop: accumulate price × quantity over
the holdings in order; an oracle `ValueError` propagates. -/
def portfolioLoop (total : ℚ) : Holdings → Except String ℚ
  | [] => .ok total
  | p :: rest =>
    match get_share_price p.1 with
    | .error e => .error e
    | .ok share_price => portfolioLoop (total + share_price * (p.2 : ℚ)) rest

/-- `Account.get_portfolio_value()`. -/
def Account.get_portfolio_value (acc : Account) : Except String ℚ :=
  portfolioLoop acc.cash_balance acc.holdings

/-- The mutating operations of the ledger, for reasoning about reachable
states. -/
inductive Op where
  | create (amount : ℚ)
  | deposit (amount : ℚ)
  | withdraw (amount : ℚ)
  | buy (symbol : String) (quantity : Int)
  | sell (symbol : String) (quantity : Int)
deriving DecidableEq, Repr

/-- Dispatch one operation. -/
def runOp (acc : Account) : Op → Except String Account
  | .create a => acc.create_account a
  | .deposit a => acc.deposit a
  | .withdraw a => acc.withdraw a
  | .buy s q => acc.buy s q
  | .sell s q => acc.sell s q

/-- A raised `ValueError` leaves the account unchanged (every raise in the
source precedes all mutations of that call). -/
def applyOp (acc : Account) (op : Op) : Account :=
  match runOp acc op with
  | .ok a => a
  | .error _ => acc

/-- Run a sequence of operations from a state, keeping the old state across
failed calls. -/
def runOps (acc : Account) : List Op → Account
  | [] => acc
  | op :: ops => runOps (applyOp acc op) ops

/-- The spec's formula for the market value of the holdings: the sum over
holdings of price × quantity (price read off the oracle's fixed table). -/
def holdingsValue (h : Holdings) : ℚ :=
  (h.map (fun p =>
    (match get_share_price p.1 with
     | .ok pr => pr
     | .error _ => 0) * (p.2 : ℚ))).sum

/-- Sample state for concrete witnesses: the account right after
`create_account 1000` on a fresh account. -/
def created1000 : Account :=
  { cash_balance := 1000, holdings := [],
    transactions := [{ type := "deposit", amount := 1000 }],
    initial_deposit := 1000 }

/-- Sample state for concrete witnesses: a created account holding 2000 in
cash and no shares (transaction log elided). -/
def sample2000 : Account :=
  { cash_balance := 2000, holdings := [], transactions := [],
    initial_deposit := 2000 }

/-- Sample state for concrete witnesses: a created account holding 150 in
cash and no shares (transaction log elided). -/
def sample150 : Account :=
  { cash_balance := 150, holdings := [], transactions := [],
    initial_deposit := 150 }

/-- `sample150` after `buy("AAPL", 1)` at price 150. -/
def sample150afterBuy : Account :=
  { cash_balance := 0, holdings := [("AAPL", 1)],
    transactions :=
      [{ type := "buy", amount := 0, symbol := some "AAPL",
         quantity := some 1, price_per_share := some 150 }],
    initial_deposit := 150 }

/-! ### Helper lemmas about the oracle and the holdings map -/

theorem get_share_price_pos {s : String} {p : ℚ}
    (h : get_share_price s = .ok p) : 0 < p := by
  unfold get_share_price at h
  split_ifs at h <;> simp_all <;> norm_num [← h]

theorem hGet_hSet_self (h : Holdings) (s : String) (v : Int) :
    hGet (hSet h s v) s = v := by
  induction h with
  | nil => simp [hSet, hGet]
  | cons p rest ih =>
    by_cases hs : p.1 = s
    · simp [hSet, hGet, hs]
    · simp [hSet, hGet, hs, ih]

theorem hGet_nonneg {h : Holdings} (hpos : ∀ p ∈ h, 0 < p.2) (s : String) :
    0 ≤ hGet h s := by
  induction h with
  | nil => simp [hGet]
  | cons p rest ih =>
    by_cases hs : p.1 = s
    · simpa [hGet, hs] using le_of_lt (hpos p (by simp))
    · exact (by simpa [hGet, hs] using ih (fun q hq => hpos q (by simp [hq])))

theorem hGet_eq_zero_of_not_hasKey {h : Holdings} {s : String}
    (habs : hHasKey h s = false) : hGet h s = 0 := by
  induction h with
  | nil => simp [hGet]
  | cons p rest ih =>
    simp only [hHasKey, Bool.or_eq_false_iff, decide_eq_false_iff_not] at habs
    simp [hGet, habs.1, ih habs.2]

theorem hErase_hSet_of_not_hasKey {h : Holdings} {s : String} (v : Int)
    (habs : hHasKey h s = false) : hErase (hSet h s v) s = h := by
  induction h with
  | nil => simp [hSet, hErase]
  | cons p rest ih =>
    simp only [hHasKey, Bool.or_eq_false_iff, decide_eq_false_iff_not] at habs
    simp [hSet, hErase, habs.1, ih habs.2]

theorem forall_mem_hSet {P : String × Int → Prop} {h : Holdings}
    {s : String} {v : Int}
    (hall : ∀ p ∈ h, P p) (hv : P (s, v)) : ∀ p ∈ hSet h s v, P p := by
  induction h with
  | nil => simpa [hSet] using hv
  | cons q rest ih =>
    intro p hp
    by_cases hs : q.1 = s
    · rcases (by simpa [hSet, hs] using hp) with h1 | h1
      · exact h1 ▸ hv
      · exact hall p (by simp [h1])
    · rcases (by simpa [hSet, hs] using hp) with h1 | h1
      · exact h1 ▸ hall q (by simp)
      · exact ih (fun r hr => hall r (by simp [hr])) p h1

theorem forall_mem_hErase {P : String × Int → Prop} {h : Holdings} {s : String}
    (hall : ∀ p ∈ h, P p) : ∀ p ∈ hErase h s, P p := by
  induction h with
  | nil => simp [hErase]
  | cons q rest ih =>
    intro p hp
    by_cases hs : q.1 = s
    · exact hall p (by simp [hErase, hs] at hp; simp [hp])
    · rcases (by simpa [hErase, hs] using hp) with h1 | h1
      · exact h1 ▸ hall q (by simp)
      · exact ih (fun r hr => hall r (by simp [hr])) p h1

/-! ### Success characterizations of the operations -/

theorem create_ok_elim {acc : Account} {d : ℚ} {a' : Account}
    (h : acc.create_account d = .ok a') :
    acc.initial_deposit ≤ 0 ∧ 0 < d ∧
      a' = { acc with
             cash_balance := d
             initial_deposit := d
             transactions := acc.transactions ++
               [{ type := "deposit", amount := d }] } := by
  unfold Account.create_account at h
  split_ifs at h with h1 h2
  · exact ⟨le_of_not_lt h1, lt_of_not_le h2, (Except.ok.injEq _ _).mp h |>.symm⟩

theorem deposit_ok_elim {acc : Account} {d : ℚ} {a' : Account}
    (h : acc.deposit d = .ok a') :
    0 < d ∧
      a' = { acc with
             cash_balance := acc.cash_balance + d
             transactions := acc.transactions ++
               [{ type := "deposit", amount := d }] } := by
  unfold Account.deposit at h
  split_ifs at h with h1
  · exact ⟨lt_of_not_le h1, (Except.ok.injEq _ _).mp h |>.symm⟩

theorem withdraw_ok_elim {acc : Account} {d : ℚ} {a' : Account}
    (h : acc.withdraw d = .ok a') :
    0 < d ∧ d ≤ acc.cash_balance ∧
      a' = { acc with
             cash_balance := acc.cash_balance - d
             transactions := acc.transactions ++
               [{ type := "withdrawal", amount := d }] } := by
  unfold Account.withdraw at h
  split_ifs at h with h1 h2
  · exact ⟨lt_of_not_le h1, le_of_not_lt h2, (Except.ok.injEq _ _).mp h |>.symm⟩

theorem buy_ok_elim {acc : Account} {S : String} {q : Int} {a' : Account}
    (h : acc.buy S q = .ok a') :
    ∃ p, 0 < q ∧ get_share_price S = .ok p ∧
      p * (q : ℚ) ≤ acc.cash_balance ∧
      a' = { acc with
             cash_balance := acc.cash_balance - p * (q : ℚ)
             holdings := hSet acc.holdings S (hGet acc.holdings S + q)
             transactions := acc.transactions ++
               [{ type := "buy", symbol := some S, quantity := some q,
                  price_per_share := some p }] } := by
  unfold Account.buy at h
  by_cases h1 : q ≤ 0
  · simp [h1] at h
  · rw [if_neg h1] at h
    cases hpr : get_share_price S with
    | error e => rw [hpr] at h; simp at h
    | ok p =>
      rw [hpr] at h
      simp only [] at h
      split_ifs at h with h2
      · exact ⟨p, lt_of_not_le h1, rfl, le_of_not_lt h2,
          ((Except.ok.injEq _ _).mp h).symm⟩

theorem sell_ok_elim {acc : Account} {S : String} {q : Int} {a' : Account}
    (h : acc.sell S q = .ok a') :
    ∃ p, 0 < q ∧ q ≤ hGet acc.holdings S ∧ get_share_price S = .ok p ∧
      a' = { acc with
             cash_balance := acc.cash_balance + p * (q : ℚ)
             holdings :=
               if hGet acc.holdings S - q = 0 then hErase acc.holdings S
               else hSet acc.holdings S (hGet acc.holdings S - q)
             transactions := acc.transactions ++
               [{ type := "sell", symbol := some S, quantity := some q,
                  price_per_share := some p }] } := by
  unfold Account.sell at h
  by_cases h1 : q ≤ 0
  · simp [h1] at h
  · rw [if_neg h1] at h
    simp only [] at h
    by_cases h2 : q > hGet acc.holdings S
    · rw [if_pos h2] at h; simp at h
    · rw [if_neg h2] at h
      cases hpr : get_share_price S with
      | error e => rw [hpr] at h; simp at h
      | ok p =>
        rw [hpr] at h
        simp only [] at h
        exact ⟨p, lt_of_not_le h1, le_of_not_lt h2,
          rfl, ((Except.ok.injEq _ _).mp h).symm⟩

theorem applyOp_of_ok {acc a' : Account} {op : Op}
    (h : runOp acc op = .ok a') : applyOp acc op = a' := by
  simp [applyOp, h]

theorem applyOp_of_error {acc : Account} {op : Op} {e : String}
    (h : runOp acc op = .error e) : applyOp acc op = acc := by
  simp [applyOp, h]

/-! ### State invariants preserved by every operation -/

theorem runOp_ok_cash_nonneg {acc a' : Account} {op : Op}
    (hc : 0 ≤ acc.cash_balance) (h : runOp acc op = .ok a') :
    0 ≤ a'.cash_balance := by
  cases op with
  | create d =>
    obtain ⟨-, hd, rfl⟩ := create_ok_elim h
    simpa using le_of_lt hd
  | deposit d =>
    obtain ⟨hd, rfl⟩ := deposit_ok_elim h
    simp only []
    linarith
  | withdraw d =>
    obtain ⟨hd, hle, rfl⟩ := withdraw_ok_elim h
    simp only []
    linarith
  | buy s q =>
    obtain ⟨p, hq, hpr, hle, rfl⟩ := buy_ok_elim h
    simp only []
    linarith
  | sell s q =>
    obtain ⟨p, hq, hle, hpr, rfl⟩ := sell_ok_elim h
    have hp := get_share_price_pos hpr
    have hq' : (0 : ℚ) ≤ (q : ℚ) := by exact_mod_cast le_of_lt hq
    have : 0 ≤ p * (q : ℚ) := mul_nonneg (le_of_lt hp) hq'
    simp only []
    linarith

theorem applyOp_cash_nonneg (acc : Account) (op : Op)
    (hc : 0 ≤ acc.cash_balance) : 0 ≤ (applyOp acc op).cash_balance := by
  cases h : runOp acc op with
  | ok a' => rw [applyOp_of_ok h]; exact runOp_ok_cash_nonneg hc h
  | error e => rw [applyOp_of_error h]; exact hc

theorem runOps_cash_nonneg (ops : List Op) (acc : Account)
    (hc : 0 ≤ acc.cash_balance) : 0 ≤ (runOps acc ops).cash_balance := by
  induction ops generalizing acc with
  | nil => simpa [runOps] using hc
  | cons op ops ih =>
    simpa [runOps] using ih (applyOp acc op) (applyOp_cash_nonneg acc op hc)

theorem runOp_ok_holdings_pos {acc a' : Account} {op : Op}
    (hh : ∀ p ∈ acc.holdings, 0 < p.2) (h : runOp acc op = .ok a') :
    ∀ p ∈ a'.holdings, 0 < p.2 := by
  cases op with
  | create d =>
    obtain ⟨-, -, rfl⟩ := create_ok_elim h
    simpa using hh
  | deposit d =>
    obtain ⟨-, rfl⟩ := deposit_ok_elim h
    simpa using hh
  | withdraw d =>
    obtain ⟨-, -, rfl⟩ := withdraw_ok_elim h
    simpa using hh
  | buy s q =>
    obtain ⟨p, hq, hpr, hle, rfl⟩ := buy_ok_elim h
    refine forall_mem_hSet hh ?_
    have := hGet_nonneg hh s
    simp only []
    omega
  | sell s q =>
    obtain ⟨p, hq, hle, hpr, rfl⟩ := sell_ok_elim h
    simp only []
    split_ifs with hz
    · exact forall_mem_hErase hh
    · refine forall_mem_hSet hh ?_
      simp only []
      omega

theorem applyOp_holdings_pos (acc : Account) (op : Op)
    (hh : ∀ p ∈ acc.holdings, 0 < p.2) :
    ∀ p ∈ (applyOp acc op).holdings, 0 < p.2 := by
  cases h : runOp acc op with
  | ok a' => rw [applyOp_of_ok h]; exact runOp_ok_holdings_pos hh h
  | error e => rw [applyOp_of_error h]; exact hh

theorem runOps_holdings_pos (ops : List Op) (acc : Account)
    (hh : ∀ p ∈ acc.holdings, 0 < p.2) :
    ∀ p ∈ (runOps acc ops).holdings, 0 < p.2 := by
  induction ops generalizing acc with
  | nil => simpa [runOps] using hh
  | cons op ops ih =>
    simpa [runOps] using ih (applyOp acc op) (applyOp_holdings_pos acc op hh)

theorem runOp_ok_holdings_priceable {acc a' : Account} {op : Op}
    (hh : ∀ p ∈ acc.holdings, (get_share_price p.1).isOk = true)
    (h : runOp acc op = .ok a') :
    ∀ p ∈ a'.holdings, (get_share_price p.1).isOk = true := by
  cases op with
  | create d =>
    obtain ⟨-, -, rfl⟩ := create_ok_elim h
    simpa using hh
  | deposit d =>
    obtain ⟨-, rfl⟩ := deposit_ok_elim h
    simpa using hh
  | withdraw d =>
    obtain ⟨-, -, rfl⟩ := withdraw_ok_elim h
    simpa using hh
  | buy s q =>
    obtain ⟨p, hq, hpr, hle, rfl⟩ := buy_ok_elim h
    refine forall_mem_hSet hh ?_
    simp [hpr, Except.isOk, Except.toBool]
  | sell s q =>
    obtain ⟨p, hq, hle, hpr, rfl⟩ := sell_ok_elim h
    simp only []
    split_ifs with hz
    · exact forall_mem_hErase hh
    · refine forall_mem_hSet hh ?_
      simp [hpr, Except.isOk, Except.toBool]

theorem applyOp_holdings_priceable (acc : Account) (op : Op)
    (hh : ∀ p ∈ acc.holdings, (get_share_price p.1).isOk = true) :
    ∀ p ∈ (applyOp acc op).holdings, (get_share_price p.1).isOk = true := by
  cases h : runOp acc op with
  | ok a' => rw [applyOp_of_ok h]; exact runOp_ok_holdings_priceable hh h
  | error e => rw [applyOp_of_error h]; exact hh

theorem runOps_holdings_priceable (ops : List Op) (acc : Account)
    (hh : ∀ p ∈ acc.holdings, (get_share_price p.1).isOk = true) :
    ∀ p ∈ (runOps acc ops).holdings, (get_share_price p.1).isOk = true := by
  induction ops generalizing acc with
  | nil => simpa [runOps] using hh
  | cons op ops ih =>
    simpa [runOps] using ih (applyOp acc op) (applyOp_holdings_priceable acc op hh)

theorem runOp_ok_initial_deposit {acc a' : Account} {op : Op}
    (hpos : 0 < acc.initial_deposit) (h : runOp acc op = .ok a') :
    a'.initial_deposit = acc.initial_deposit := by
  cases op with
  | create d =>
    obtain ⟨hle, -, -⟩ := create_ok_elim h
    exact absurd hpos (not_lt.mpr hle)
  | deposit d => obtain ⟨-, rfl⟩ := deposit_ok_elim h; rfl
  | withdraw d => obtain ⟨-, -, rfl⟩ := withdraw_ok_elim h; rfl
  | buy s q => obtain ⟨p, -, -, -, rfl⟩ := buy_ok_elim h; rfl
  | sell s q => obtain ⟨p, -, -, -, rfl⟩ := sell_ok_elim h; rfl

theorem applyOp_initial_deposit (acc : Account) (op : Op)
    (hpos : 0 < acc.initial_deposit) :
    (applyOp acc op).initial_deposit = acc.initial_deposit := by
  cases h : runOp acc op with
  | ok a' => rw [applyOp_of_ok h]; exact runOp_ok_initial_deposit hpos h
  | error e => rw [applyOp_of_error h]

theorem runOps_initial_deposit (ops : List Op) (acc : Account)
    (hpos : 0 < acc.initial_deposit) :
    (runOps acc ops).initial_deposit = acc.initial_deposit := by
  induction ops generalizing acc with
  | nil => simp [runOps]
  | cons op ops ih =>
    have h1 := applyOp_initial_deposit acc op hpos
    simpa [runOps, h1] using ih (applyOp acc op) (h1 ▸ hpos)

theorem runOp_ok_txn_len {acc a' : Account} {op : Op}
    (h : runOp acc op = .ok a') :
    a'.transactions.length = acc.transactions.length + 1 := by
  cases op with
  | create d => obtain ⟨-, -, rfl⟩ := create_ok_elim h; simp
  | deposit d => obtain ⟨-, rfl⟩ := deposit_ok_elim h; simp
  | withdraw d => obtain ⟨-, -, rfl⟩ := withdraw_ok_elim h; simp
  | buy s q => obtain ⟨p, -, -, -, rfl⟩ := buy_ok_elim h; simp
  | sell s q => obtain ⟨p, -, -, -, rfl⟩ := sell_ok_elim h; simp

theorem portfolioLoop_eq {h : Holdings} (total : ℚ)
    (hall : ∀ p ∈ h, (get_share_price p.1).isOk = true) :
    portfolioLoop total h = .ok (total + holdingsValue h) := by
  induction h generalizing total with
  | nil => simp [portfolioLoop, holdingsValue]
  | cons p rest ih =>
    have hp := hall p (by simp)
    cases hpr : get_share_price p.1 with
    | error e => rw [hpr] at hp; simp [Except.isOk, Except.toBool] at hp
    | ok pr =>
      have hstep : portfolioLoop total (p :: rest) =
          portfolioLoop (total + pr * (p.2 : ℚ)) rest := by
        simp only [portfolioLoop, hpr]
      rw [hstep, ih (total + pr * (p.2 : ℚ)) (fun r hr => hall r (by simp [hr]))]
      have hv : holdingsValue (p :: rest) =
          pr * (p.2 : ℚ) + holdingsValue rest := by
        simp only [holdingsValue, List.map_cons, List.sum_cons, hpr]
      rw [hv]
      congr 1
      ring

theorem applyOp_of_not_ok {acc : Account} {op : Op}
    (h : (runOp acc op).isOk = false) : applyOp acc op = acc := by
  cases heq : runOp acc op with
  | ok a => rw [heq] at h; simp [Except.isOk, Except.toBool] at h
  | error e => exact applyOp_of_error heq

theorem buy_ok_intro (acc : Account) (S : String) (q : Int) (p : ℚ)
    (hq : 0 < q) (hpr : get_share_price S = .ok p)
    (haff : p * (q : ℚ) ≤ acc.cash_balance) :
    acc.buy S q = .ok { acc with
      cash_balance := acc.cash_balance - p * (q : ℚ)
      holdings := hSet acc.holdings S (hGet acc.holdings S + q)
      transactions := acc.transactions ++
        [{ type := "buy", symbol := some S, quantity := some q,
           price_per_share := some p }] } := by
  unfold Account.buy
  rw [if_neg (not_le.mpr hq), hpr]
  simp only []
  rw [if_neg (not_lt.mpr haff)]

theorem sell_ok_intro (acc : Account) (S : String) (q : Int) (p : ℚ)
    (hq : 0 < q) (hcur : q ≤ hGet acc.holdings S)
    (hpr : get_share_price S = .ok p) :
    acc.sell S q = .ok { acc with
      cash_balance := acc.cash_balance + p * (q : ℚ)
      holdings :=
        if hGet acc.holdings S - q = 0 then hErase acc.holdings S
        else hSet acc.holdings S (hGet acc.holdings S - q)
      transactions := acc.transactions ++
        [{ type := "sell", symbol := some S, quantity := some q,
           price_per_share := some p }] } := by
  unfold Account.sell
  rw [if_neg (not_le.mpr hq)]
  simp only []
  rw [if_neg (not_lt.mpr hcur), hpr]

/-! ### The claims -/

/-- Claim C1 counterexample: the claim says every mutating operation other
than creation fails with a "not initialized" error before a successful
create; but `deposit(100)` on a freshly constructed, never-created account
succeeds and changes the state. -/
theorem C1_counterexample :
    Account.init.deposit 100 =
      .ok { cash_balance := 100, holdings := [],
            transactions := [{ type := "deposit", amount := 100 }],
            initial_deposit := 0 } := by
  norm_num [Account.deposit, Account.init]

/-- Claim C1 (amended): the code has no initialization check at all.  On a
fresh account, deposit of a positive amount succeeds, while withdraw, buy
and sell always fail (with amount/funds/shares/symbol errors, never a
"not initialized" one), and every failing operation leaves the account
state unchanged. -/
theorem C1_no_init_check :
    (∀ a : ℚ, 0 < a → (Account.init.deposit a).isOk = true) ∧
    (∀ a : ℚ, (Account.init.withdraw a).isOk = false) ∧
    (∀ (S : String) (q : Int), (Account.init.buy S q).isOk = false) ∧
    (∀ (S : String) (q : Int), (Account.init.sell S q).isOk = false) ∧
    (∀ op : Op, (runOp Account.init op).isOk = false →
      applyOp Account.init op = Account.init) := by
  refine ⟨?_, ?_, ?_, ?_, fun op h => applyOp_of_not_ok h⟩
  · intro a ha
    simp [Account.deposit, not_le.mpr ha, Except.isOk, Except.toBool]
  · intro a
    unfold Account.withdraw
    split_ifs with h1 h2
    · rfl
    · rfl
    · exact absurd (lt_of_not_le h1) (by simpa [Account.init] using h2)
  · intro S q
    by_cases hq : q ≤ 0
    · simp [Account.buy, hq, Except.isOk, Except.toBool]
    · unfold Account.buy
      rw [if_neg hq]
      cases hpr : get_share_price S with
      | error e => rfl
      | ok p =>
        have hp := get_share_price_pos hpr
        have hq' : (0 : ℚ) < (q : ℚ) := by exact_mod_cast lt_of_not_le hq
        have hc : p * (q : ℚ) > Account.init.cash_balance := by
          simpa [Account.init] using mul_pos hp hq'
        simp only []
        rw [if_pos hc]
        rfl
  · intro S q
    by_cases hq : q ≤ 0
    · simp [Account.sell, hq, Except.isOk, Except.toBool]
    · unfold Account.sell
      rw [if_neg hq]
      simp only []
      rw [if_pos (by simpa [Account.init, hGet] using lt_of_not_le hq)]
      rfl

/-- Claim C1 witness: the amended statement at concrete inputs. -/
theorem C1_no_init_check_witness :
    (Account.init.deposit 100).isOk = true ∧
    (Account.init.withdraw 50).isOk = false :=
  ⟨C1_no_init_check.1 100 (by norm_num), C1_no_init_check.2.1 50⟩

/-- Claim C2 counterexample: after `create(2000)` and a successful
`buy("AAPL", 1)`, the recorded buy transaction's money field `amount` (the
spec's cash_amount) is the dataclass default 0, not the total cost 150 × 1. -/
theorem C2_counterexample :
    (runOps Account.init [Op.create 2000, Op.buy "AAPL" 1]).transactions =
      [{ type := "deposit", amount := 2000 },
       { type := "buy", amount := 0, symbol := some "AAPL",
         quantity := some 1, price_per_share := some 150 }] ∧
    (0 : ℚ) ≠ 150 * 1 := by
  constructor
  · norm_num [runOps, applyOp, runOp, Account.init, Account.create_account,
      Account.buy, get_share_price, hGet, hSet]
  · norm_num

/-- Claim C2 (amended): every successful `buy(symbol, quantity)` appends one
Transaction recording the symbol, the quantity and price_per_share equal to
the oracle price at execution; its money field `amount` is left at the
dataclass default 0, not at total_cost. -/
theorem C2_buy_transaction (acc a' : Account) (S : String) (q : Int)
    (h : acc.buy S q = .ok a') :
    ∃ p, get_share_price S = .ok p ∧
      a'.transactions = acc.transactions ++
        [{ type := "buy", amount := 0, symbol := some S, quantity := some q,
           price_per_share := some p }] := by
  obtain ⟨p, -, hpr, -, rfl⟩ := buy_ok_elim h
  exact ⟨p, hpr, rfl⟩

/-- Claim C2 witness: the amended statement at a concrete successful buy. -/
theorem C2_buy_transaction_witness :
    ∃ p, get_share_price "AAPL" = .ok p ∧
      sample150afterBuy.transactions = sample150.transactions ++
        [{ type := "buy", amount := 0, symbol := some "AAPL",
           quantity := some 1, price_per_share := some p }] :=
  C2_buy_transaction sample150 sample150afterBuy "AAPL" 1
    (by norm_num [Account.buy, get_share_price, hGet, hSet, sample150,
      sample150afterBuy])

/-- Claim C3 (confirmed): for a symbol the oracle prices, a positive
quantity affordable from the current balance, and a current holding that is
not negative (as in every reachable state), `buy(S, q)` succeeds,
`sell(S, q)` right after succeeds, cash_balance returns exactly to its
pre-buy value, and if S was absent from holdings before the buy it is
absent again afterwards. -/
theorem C3_round_trip (acc : Account) (S : String) (q : Int) (p : ℚ)
    (hpr : get_share_price S = .ok p) (hq : 0 < q)
    (haff : p * (q : ℚ) ≤ acc.cash_balance)
    (hnn : 0 ≤ hGet acc.holdings S) :
    ∃ a1 a2, acc.buy S q = .ok a1 ∧ a1.sell S q = .ok a2 ∧
      a2.cash_balance = acc.cash_balance ∧
      (hHasKey acc.holdings S = false → hHasKey a2.holdings S = false) := by
  have hbuy := buy_ok_intro acc S q p hq hpr haff
  have hcur : q ≤ hGet (hSet acc.holdings S (hGet acc.holdings S + q)) S := by
    rw [hGet_hSet_self]
    omega
  have hsell := sell_ok_intro
    { acc with
      cash_balance := acc.cash_balance - p * (q : ℚ)
      holdings := hSet acc.holdings S (hGet acc.holdings S + q)
      transactions := acc.transactions ++
        [{ type := "buy", symbol := some S, quantity := some q,
           price_per_share := some p }] }
    S q p hq hcur hpr
  refine ⟨_, _, hbuy, hsell, ?_, ?_⟩
  · show acc.cash_balance - p * (q : ℚ) + p * (q : ℚ) = acc.cash_balance
    ring
  · intro habs
    have h0 : hGet acc.holdings S = 0 := hGet_eq_zero_of_not_hasKey habs
    show hHasKey
      (if hGet (hSet acc.holdings S (hGet acc.holdings S + q)) S - q = 0 then
        hErase (hSet acc.holdings S (hGet acc.holdings S + q)) S
      else
        hSet (hSet acc.holdings S (hGet acc.holdings S + q)) S
          (hGet (hSet acc.holdings S (hGet acc.holdings S + q)) S - q)) S = false
    rw [hGet_hSet_self, h0]
    rw [if_pos (show (0 : Int) + q - q = 0 by omega)]
    rw [hErase_hSet_of_not_hasKey _ habs]
    exact habs

/-- Claim C3 witness: create 2000, buy 5 AAPL at 150, sell them back:
cash returns to 2000 and AAPL is absent again. -/
theorem C3_round_trip_witness :
    ∃ a1 a2,
      sample2000.buy "AAPL" 5 = .ok a1 ∧
      a1.sell "AAPL" 5 = .ok a2 ∧
      a2.cash_balance = sample2000.cash_balance ∧
      (hHasKey sample2000.holdings "AAPL" = false →
        hHasKey a2.holdings "AAPL" = false) :=
  C3_round_trip sample2000 "AAPL" 5 150
    (by norm_num [get_share_price]) (by norm_num)
    (by norm_num [sample2000]) (by norm_num [hGet, sample2000])

/-- Claim C4 (confirmed): when the balance is non-negative (as it always
is), withdrawing more than the balance fails with the insufficient-funds
error; a non-positive amount instead hits the positivity check first and
fails with the invalid-amount error; and any failed withdraw leaves the
account (hence cash_balance and the transaction count) unchanged. -/
theorem C4_withdraw_insufficient (acc : Account) (a : ℚ) :
    (0 ≤ acc.cash_balance → acc.cash_balance < a →
      acc.withdraw a = .error "Insufficient funds for withdrawal.") ∧
    (a ≤ 0 →
      acc.withdraw a = .error "Withdrawal amount must be greater than zero.") ∧
    ((acc.withdraw a).isOk = false → applyOp acc (Op.withdraw a) = acc) := by
  refine ⟨?_, ?_, fun h => applyOp_of_not_ok h⟩
  · intro h0 hlt
    unfold Account.withdraw
    rw [if_neg (not_le.mpr (lt_of_le_of_lt h0 hlt)), if_pos hlt]
  · intro ha
    unfold Account.withdraw
    rw [if_pos ha]

/-- Claim C4 witness: both failure modes at concrete inputs. -/
theorem C4_withdraw_insufficient_witness :
    Account.init.withdraw 5 = .error "Insufficient funds for withdrawal." ∧
    Account.init.withdraw (-3) =
      .error "Withdrawal amount must be greater than zero." :=
  ⟨(C4_withdraw_insufficient Account.init 5).1
      (by norm_num [Account.init]) (by norm_num [Account.init]),
   (C4_withdraw_insufficient Account.init (-3)).2.1 (by norm_num)⟩

/-- Claim C5 (confirmed): after one successful create, every further create
(after any sequence of further operations) fails with the already-created
error and leaves the whole account state, in particular cash_balance,
initial_deposit, holdings and the transaction log, unchanged. -/
theorem C5_already_created (acc a1 : Account) (d0 d : ℚ) (ops : List Op)
    (h : acc.create_account d0 = .ok a1) :
    (runOps a1 ops).create_account d =
      .error "Account already created with initial deposit." ∧
    applyOp (runOps a1 ops) (Op.create d) = runOps a1 ops := by
  have h3 := (create_ok_elim h).2.2
  have hpos : 0 < a1.initial_deposit := by
    rw [h3]
    exact (create_ok_elim h).2.1
  have hid := runOps_initial_deposit ops a1 hpos
  have hfail : (runOps a1 ops).create_account d =
      .error "Account already created with initial deposit." := by
    unfold Account.create_account
    rw [if_pos (by rw [hid]; exact hpos)]
  exact ⟨hfail, applyOp_of_error hfail⟩

/-- Claim C5 witness: `create(1000)` then `create(500)` fails and
cash_balance remains 1000. -/
theorem C5_already_created_witness :
    (runOps created1000 []).create_account 500 =
      .error "Account already created with initial deposit." ∧
    applyOp (runOps created1000 []) (Op.create 500) = runOps created1000 [] :=
  C5_already_created Account.init created1000 1000 500 []
    (by norm_num [Account.create_account, Account.init, created1000])

/-- Claim C6 (confirmed): cash_balance is non-negative after every sequence
of operations, successful or failed, starting from a fresh account. -/
theorem C6_cash_balance_nonneg (ops : List Op) :
    0 ≤ (runOps Account.init ops).cash_balance :=
  runOps_cash_nonneg ops Account.init (by norm_num [Account.init])

/-- Claim C7 (confirmed): after every sequence of operations from a fresh
account, every value stored in holdings is strictly positive — buy only
adds positive counts and sell deletes an entry that reaches zero. -/
theorem C7_holdings_positive (ops : List Op) :
    ∀ p ∈ (runOps Account.init ops).holdings, 0 < p.2 :=
  runOps_holdings_pos ops Account.init (by simp [Account.init])

/-- Claim C7 witness: a concrete reachable state with a holding, whose
count is positive. -/
theorem C7_holdings_positive_witness : (0 : Int) < 5 :=
  C7_holdings_positive [Op.create 2000, Op.buy "AAPL" 5] ("AAPL", 5)
    (by norm_num [runOps, applyOp, runOp, Account.init, Account.create_account,
      Account.buy, get_share_price, hGet, hSet])

/-- Claim C8 (confirmed): every successful mutating call appends exactly one
transaction to `list_transactions()`, and every failed call leaves the list
unchanged. -/
theorem C8_transaction_count (acc : Account) (op : Op) :
    (∀ a', runOp acc op = .ok a' →
      a'.list_transactions.length = acc.list_transactions.length + 1) ∧
    ((runOp acc op).isOk = false →
      (applyOp acc op).list_transactions = acc.list_transactions) := by
  constructor
  · intro a' h
    exact runOp_ok_txn_len h
  · intro h
    rw [applyOp_of_not_ok h]

/-- Claim C8 witness: a concrete successful create appends one transaction. -/
theorem C8_transaction_count_witness :
    created1000.list_transactions.length =
      Account.init.list_transactions.length + 1 :=
  (C8_transaction_count Account.init (Op.create 1000)).1 created1000
    (by norm_num [runOp, Account.create_account, Account.init, created1000])

/-- Claim C9 (confirmed): in every reachable state, each held symbol is one
of the oracle's fixed table AAPL, TSLA, GOOGL, and `get_portfolio_value()`
never hits the unknown-symbol failure: it returns cash_balance plus the sum
over holdings of price × quantity. -/
theorem C9_portfolio_total (ops : List Op) :
    (∀ p ∈ (runOps Account.init ops).holdings,
      p.1 = "AAPL" ∨ p.1 = "TSLA" ∨ p.1 = "GOOGL") ∧
    (runOps Account.init ops).get_portfolio_value =
      .ok ((runOps Account.init ops).cash_balance +
        holdingsValue (runOps Account.init ops).holdings) := by
  have hpr := runOps_holdings_priceable ops Account.init (by simp [Account.init])
  constructor
  · intro p hp
    have hok := hpr p hp
    unfold get_share_price at hok
    split_ifs at hok with h1 h2 h3
    · exact Or.inl h1
    · exact Or.inr (Or.inl h2)
    · exact Or.inr (Or.inr h3)
    · simp [Except.isOk, Except.toBool] at hok
  · exact portfolioLoop_eq _ hpr

/-- Claim C9 witness: a concrete reachable state, the held-symbol fact and
the portfolio value both instantiated. -/
theorem C9_portfolio_total_witness :
    ("AAPL" = "AAPL" ∨ "AAPL" = "TSLA" ∨ "AAPL" = "GOOGL") ∧
    (runOps Account.init [Op.create 2000, Op.buy "AAPL" 5]).get_portfolio_value =
      .ok ((runOps Account.init [Op.create 2000, Op.buy "AAPL" 5]).cash_balance +
        holdingsValue (runOps Account.init [Op.create 2000, Op.buy "AAPL" 5]).holdings) :=
  ⟨(C9_portfolio_total [Op.create 2000, Op.buy "AAPL" 5]).1 ("AAPL", 5)
      (by norm_num [runOps, applyOp, runOp, Account.init, Account.create_account,
        Account.buy, get_share_price, hGet, hSet]),
   (C9_portfolio_total [Op.create 2000, Op.buy "AAPL" 5]).2⟩

/-- Claim C10 (confirmed): sell validates the held quantity before calling
the oracle: for every positive quantity exceeding the held count, and every
symbol whatsoever (known to the oracle or not), sell fails with the
insufficient-shares error. -/
theorem C10_sell_shares_before_price (acc : Account) (S : String) (q : Int)
    (hq : 0 < q) (hheld : hGet acc.holdings S < q) :
    acc.sell S q = .error "Insufficient shares held to sell." := by
  unfold Account.sell
  rw [if_neg (not_le.mpr hq)]
  simp only []
  rw [if_pos hheld]

/-- Claim C10 witness: overselling a symbol the oracle does not know still
reports insufficient shares, not an unknown symbol. -/
theorem C10_sell_shares_before_price_witness :
    Account.init.sell "ZZZZ" 1 = .error "Insufficient shares held to sell." :=
  C10_sell_shares_before_price Account.init "ZZZZ" 1 (by norm_num)
    (by norm_num [Account.init, hGet])

end Accounts
